import Mathlib

/-!
Verification of the dataset_viz frontend (src/frontend/src/api.ts and the App
component, plus the ChartView histogram in src/unnamed/part_000) against its
specification.  JavaScript strings are modelled as Lean `String`, JS numbers as
`Int` or `Rat` where noted, JSON values as an inductive `Json`, and the React
component as an explicit state machine whose transitions mirror the handlers
and effects of the source.
-/

namespace DatasetViz

/-- Model of a JavaScript JSON value as produced by `JSON.parse`.  Numbers are
modelled as integers; none of the verified claims depends on fractional JSON
number formatting. -/
inductive Json where
  | null : Json
  | bool (b : Bool) : Json
  | num (n : Int) : Json
  | str (s : String) : Json
  | arr (elems : List Json) : Json
  | obj (fields : List (String × Json)) : Json
deriving Inhabited

/-- Escaping of one character inside a JSON string literal, as done by
`JSON.stringify`. -/
def jsEscapeChar (c : Char) : String :=
  if c = '"' then "\\\""
  else if c = '\\' then "\\\\"
  else if c = '\n' then "\\n"
  else if c = '\r' then "\\r"
  else if c = '\t' then "\\t"
  else String.singleton c

/-- Escaping of a JSON string body, as done by `JSON.stringify`. -/
def jsEscape (s : String) : String :=
  String.join (s.data.map jsEscapeChar)

mutual

/-- Model of `JSON.stringify` (compact form, no spacing), used by the error
branch of the `json` helper for a non-string `detail` value. -/
def stringify : Json → String
  | .null => "null"
  | .bool true => "true"
  | .bool false => "false"
  | .num n => toString n
  | .str s => "\"" ++ jsEscape s ++ "\""
  | .arr elems => "[" ++ stringifyElems elems ++ "]"
  | .obj fields => "\x7b" ++ stringifyFields fields ++ "\x7d"

/-- Comma-separated serialization of JSON array elements. -/
def stringifyElems : List Json → String
  | [] => ""
  | [j] => stringify j
  | j :: rest => stringify j ++ "," ++ stringifyElems rest

/-- Comma-separated serialization of JSON object fields. -/
def stringifyFields : List (String × Json) → String
  | [] => ""
  | [kv] => "\"" ++ jsEscape kv.1 ++ "\":" ++ stringify kv.2
  | kv :: rest =>
      "\"" ++ jsEscape kv.1 ++ "\":" ++ stringify kv.2 ++ "," ++ stringifyFields rest

end

/-- JavaScript truthiness restricted to values `JSON.parse` can produce:
null, false, 0 and the empty string are falsy; arrays and objects are always
truthy. -/
def Json.isTruthy : Json → Bool
  | .null => false
  | .bool b => b
  | .num n => decide (n ≠ 0)
  | .str s => decide (s ≠ "")
  | .arr _ => true
  | .obj _ => true

/-- JavaScript `typeof x === "object"` for values `JSON.parse` can produce:
null, arrays and objects. -/
def Json.isObjectType : Json → Bool
  | .null => true
  | .arr _ => true
  | .obj _ => true
  | _ => false

/-- JavaScript property lookup `parsed.detail` combined with the
`"detail" in parsed` membership test: for a parsed plain object the bound
value of the "detail" key when present; arrays and all other values have no
such property. -/
def Json.getDetail : Json → Option Json
  | .obj fields =>
      match fields.find? (fun kv => kv.1 == "detail") with
      | some kv => some kv.2
      | none => none
  | _ => none

/-- The error branch of the frontend helper `json` in src/frontend/src/api.ts
(lines 34-49): from the response body text, the HTTP status text, and the
outcome of `JSON.parse` on that body (`parseResult = none` models a parse
exception), the message of the thrown Error.  When the body text is empty the
code skips parsing and takes `parsed` to be null. -/
def errorMessageOfResponse (text statusText : String) (parseResult : Option Json) : String :=
  let message := if text = "" then statusText else text
  let parsed : Option Json := if text = "" then some Json.null else parseResult
  match parsed with
  | none => message
  | some p =>
      match (if p.isTruthy && p.isObjectType then p.getDetail else none) with
      | some (Json.str s) => s
      | some d => stringify d
      | none =>
          match p with
          | Json.str s => s
          | _ => message

/-- Outcome of one fetch as observed by the `json` helper: an ok response
whose body decoded (`res.json()`) to a value of the expected type, or a non-ok
response carrying its status text, its raw body text and the `JSON.parse`
outcome on that body. -/
inductive FetchOutcome (α : Type) where
  | success (value : α)
  | failure (statusText : String) (bodyText : String) (parsed : Option Json)

/-- The frontend helper `json` (src/frontend/src/api.ts lines 29-52): an ok
response yields the decoded body unchanged; a non-ok response throws an Error
whose message is `errorMessageOfResponse`. -/
def jsonHelper {α : Type} : FetchOutcome α → Except String α
  | .success v => .ok v
  | .failure st txt parsed => .error (errorMessageOfResponse txt st parsed)

/-- The query response type of the protocol (src/frontend/src/api.ts lines
14-20): columns as strings, columnar data (one array per column), an integer
row_count, a boolean truncated flag and a numeric elapsed_ms (modelled as a
rational). -/
structure QueryResponse where
  columns : List String
  data : List (List Json)
  row_count : Int
  truncated : Bool
  elapsed_ms : Rat

/-- api.query (src/frontend/src/api.ts lines 73-78): issues the POST request
and hands the `json` helper's result directly to the caller. -/
def apiQuery (outcome : FetchOutcome QueryResponse) : Except String QueryResponse :=
  jsonHelper outcome

/-- JavaScript `path.includes("?")` specialised to a single character. -/
def strContainsChar (s : String) (c : Char) : Bool :=
  s.data.any (fun a => a == c)

/-- Number of occurrences of a character in a string. -/
def countChar (s : String) (c : Char) : Nat :=
  s.data.count c

/-- Upper-case hexadecimal digit for a value below 16. -/
def hexUpperDigit (n : Nat) : Char :=
  if n < 10 then Char.ofNat (48 + n) else Char.ofNat (55 + n)

/-- Percent-encoding of one byte, as emitted by `encodeURIComponent`. -/
def percentEncodeByte (b : UInt8) : List Char :=
  ['%', hexUpperDigit (b.toNat / 16), hexUpperDigit (b.toNat % 16)]

/-- Characters `encodeURIComponent` leaves unescaped: ASCII letters, digits,
and - _ . ! ~ * ( ) together with the apostrophe (character code 39). -/
def isURIUnreserved (c : Char) : Bool :=
  c.isAlpha || c.isDigit || c == '-' || c == '_' || c == '.' || c == '!' ||
    c == '~' || c == '*' || decide (c.val = 39) || c == '(' || c == ')'

/-- Encoding of one character: kept verbatim when unreserved, otherwise each
byte of its UTF-8 encoding is percent-encoded. -/
def encodeURIComponentChar (c : Char) : List Char :=
  if isURIUnreserved c then [c]
  else ((String.singleton c).toUTF8.toList.map percentEncodeByte).flatten

/-- Model of JavaScript `encodeURIComponent`. -/
def encodeURIComponent (s : String) : String :=
  String.mk ((s.data.map encodeURIComponentChar).flatten)

/-- withRoot (src/frontend/src/api.ts lines 26-27): when `root` is truthy (a
present, non-empty string) append the root query parameter, joined with an
ampersand when the path already holds a question mark; otherwise return the
path unchanged.  `none` models both null and undefined. -/
def withRoot (path : String) (root : Option String) : String :=
  if root.getD "" = "" then path
  else
    path ++ (if strContainsChar path '?' then "&" else "?") ++ "root=" ++
      encodeURIComponent (root.getD "")

/-- Modelled from the spec: the backend Query Executor's effective-limit rule
(spec section 4.5 step 2; the backend source is not under src/, only the
README documenting QUERY_DEFAULT_LIMIT = 1000 and QUERY_MAX_LIMIT = 5000):
a caller-supplied limit is clamped to the interval from 1 to maxLimit,
otherwise defaultLimit applies. -/
def effectiveLimit (defaultLimit maxLimit : Int) (limitOverride : Option Int) : Int :=
  match limitOverride with
  | some l => min maxLimit (max 1 l)
  | none => defaultLimit

/-- Modelled from the spec: the backend executor's fetch-one-extra mechanism
(spec section 4.5 step 5; the backend source is not under src/): over the rows
the user's SQL produces (for a query with no explicit limit, the whole split),
fetch at most eff + 1 rows; when exactly eff + 1 arrive, keep only eff of them
and set the truncated flag, otherwise return them all untruncated. -/
def runWithLimit {α : Type} (rows : List α) (eff : Nat) : List α × Bool :=
  let fetched := rows.take (eff + 1)
  if fetched.length = eff + 1 then (rows.take eff, true) else (fetched, false)

/-- JavaScript String.prototype.trim: strip leading and trailing
whitespace. -/
def jsTrim (s : String) : String :=
  String.mk (((s.data.dropWhile Char.isWhitespace).reverse.dropWhile
    Char.isWhitespace).reverse)

/-- A query request body (src/frontend/src/api.ts lines 7-12); the App always
supplies all four fields. -/
structure QueryRequest where
  sql : String
  split : Option String
  limit : Int
  offset : Int
deriving DecidableEq

/-- One backend call issued by the App component through the api object. -/
inductive ApiCall where
  | listDatasets (root : String)
  | listSplits (dataset root : String)
  | schema (dataset root : String) (split : Option String)
  | count (dataset root : String) (split : Option String)
  | query (dataset root : String) (body : QueryRequest)
deriving DecidableEq

/-- Default SQL of the App component (src/frontend/src/api.ts line 330). -/
def DEFAULT_SQL : String := "SELECT * FROM t;"

/-- State of the App component (src/frontend/src/api.ts lines 332-352): the
useState hooks plus the abort-controller and sequence-number refs.  Abort
controllers are modelled by identifiers drawn from a fresh counter `nextCtrl`;
`abortedCtrls` lists every controller on which abort() has been called. -/
structure AppState where
  datasetRoot : String
  datasets : List String
  selectedDataset : Option String
  splits : List String
  selectedSplit : Option String
  schemaCols : List (String × String)
  sql : String
  limit : Int
  offset : Int
  result : Option QueryResponse
  totalCount : Option Int
  loading : Bool
  countLoading : Bool
  error : Option String
  autoRunPending : Bool
  querySeq : Nat
  countSeq : Nat
  queryCtrl : Option Nat
  countCtrl : Option Nat
  nextCtrl : Nat
  abortedCtrls : List Nat

/-- Initial values of the hooks and refs. -/
def initialState : AppState :=
  { datasetRoot := "", datasets := [], selectedDataset := none, splits := [],
    selectedSplit := none, schemaCols := [], sql := DEFAULT_SQL, limit := 500,
    offset := 0, result := none, totalCount := none, loading := false,
    countLoading := false, error := none, autoRunPending := false,
    querySeq := 0, countSeq := 0, queryCtrl := none, countCtrl := none,
    nextCtrl := 0, abortedCtrls := [] }

/-- Calling abort() on an optional controller: records its identifier as
aborted. -/
def abortCtrl (aborted : List Nat) : Option Nat → List Nat
  | some c => c :: aborted
  | none => aborted

/-- runQuery (src/frontend/src/api.ts lines 429-450) up to the point where the
request is sent: guard on dataset and root, tag the request with the
incremented query sequence number, abort the previous query controller,
install a fresh controller, set loading, clear the error and issue the POST.
Returns the new state together with the issued calls. -/
def runQueryStart (s : AppState) (sqlOverride : Option String)
    (offsetOverride : Option Int) : AppState × List ApiCall :=
  match s.selectedDataset with
  | none => ({ s with error := some "Pick a dataset and dataset folder first." }, [])
  | some ds =>
      if s.datasetRoot = "" then
        ({ s with error := some "Pick a dataset and dataset folder first." }, [])
      else
        let sqlToUse := sqlOverride.getD s.sql
        let offsetToUse := offsetOverride.getD s.offset
        let ctrl := s.nextCtrl
        ({ s with querySeq := s.querySeq + 1,
                  abortedCtrls := abortCtrl s.abortedCtrls s.queryCtrl,
                  queryCtrl := some ctrl,
                  nextCtrl := ctrl + 1,
                  loading := true,
                  error := none },
         [ApiCall.query ds s.datasetRoot ⟨sqlToUse, s.selectedSplit, s.limit, offsetToUse⟩])

/-- Completion of a query request (src/frontend/src/api.ts lines 444-460):
a response tagged with a stale sequence number is dropped; a failure on an
aborted controller sets no error; the finally block clears loading only for
the current sequence number. -/
def runQueryComplete (s : AppState) (requestId ctrl : Nat)
    (outcome : Except String QueryResponse) : AppState :=
  match outcome with
  | .ok res =>
      let s1 := if requestId = s.querySeq then { s with result := some res } else s
      if requestId = s1.querySeq then { s1 with loading := false } else s1
  | .error msg =>
      let s1 :=
        if ctrl ∈ s.abortedCtrls then s
        else if requestId ≠ s.querySeq then s
        else { s with result := none, error := some msg }
      if requestId = s1.querySeq then { s1 with loading := false } else s1

/-- fetchCount (src/frontend/src/api.ts lines 463-477) up to the point where
the request is sent: guard on dataset and root, tag with the incremented count
sequence number, abort the previous count controller, install a fresh one, set
countLoading, clear the error and issue the GET. -/
def fetchCountStart (s : AppState) : AppState × List ApiCall :=
  match s.selectedDataset with
  | none => ({ s with error := some "Pick a dataset and dataset folder first." }, [])
  | some ds =>
      if s.datasetRoot = "" then
        ({ s with error := some "Pick a dataset and dataset folder first." }, [])
      else
        let ctrl := s.nextCtrl
        ({ s with countSeq := s.countSeq + 1,
                  abortedCtrls := abortCtrl s.abortedCtrls s.countCtrl,
                  countCtrl := some ctrl,
                  nextCtrl := ctrl + 1,
                  countLoading := true,
                  error := none },
         [ApiCall.count ds s.datasetRoot s.selectedSplit])

/-- Completion of a count request (src/frontend/src/api.ts lines 477-487). -/
def fetchCountComplete (s : AppState) (requestId ctrl : Nat)
    (outcome : Except String Int) : AppState :=
  match outcome with
  | .ok rows =>
      let s1 := if requestId = s.countSeq then { s with totalCount := some rows } else s
      if requestId = s1.countSeq then { s1 with countLoading := false } else s1
  | .error msg =>
      let s1 :=
        if ctrl ∈ s.abortedCtrls then s
        else if requestId ≠ s.countSeq then s
        else { s with totalCount := none, error := some msg }
      if requestId = s1.countSeq then { s1 with countLoading := false } else s1

/-- hasNext (src/frontend/src/api.ts lines 520-524): with no result, false;
with a known total count, whether offset + row_count is below it; otherwise
the truncated flag of the last response. -/
def hasNext (s : AppState) : Bool :=
  match s.result with
  | none => false
  | some r =>
      match s.totalCount with
      | some t => decide (s.offset + r.row_count < t)
      | none => r.truncated

/-- Enabledness of the Next button (negation of its disabled expression,
src/frontend/src/api.ts line 619). -/
def nextButtonEnabled (s : AppState) : Bool :=
  s.result.isSome && hasNext s && !s.loading

/-- Enabledness of the Prev button (negation of its disabled expression,
src/frontend/src/api.ts line 607). -/
def prevButtonEnabled (s : AppState) : Bool :=
  s.result.isSome && decide (s.offset ≠ 0) && !s.loading

/-- Enabledness of the Count rows button (negation of its disabled expression,
src/frontend/src/api.ts line 595). -/
def countButtonEnabled (s : AppState) : Bool :=
  s.selectedDataset.isSome && !s.countLoading && !s.loading

/-- handleLimitChange (src/frontend/src/api.ts lines 526-529): set the limit
and reset the offset to 0. -/
def handleLimitChange (s : AppState) (value : Int) : AppState :=
  { s with limit := value, offset := 0 }

/-- User interactions, React effects and request completions of the App
component.  Completion events carry the sequence number the request was tagged
with, the identifier of the controller it used, and the outcome the awaited
api call produced. -/
inductive Event where
  | setRoot (root : String)
  | clickLoadDatasets
  | datasetsLoaded (names : List String)
  | datasetsFailed (msg : String)
  | datasetEffect
  | splitsLoaded (names : List String)
  | splitsFailed (msg : String)
  | splitEffect
  | schemaLoaded (cols : List (String × String)) (approxRows : Option Int)
  | schemaFailed (msg : String)
  | clickRunQuery
  | autoRunEffect
  | queryCompleted (requestId ctrl : Nat) (outcome : Except String QueryResponse)
  | clickCountRows
  | countCompleted (requestId ctrl : Nat) (outcome : Except String Int)
  | clickPrev
  | clickNext
  | setSql (sql : String)
  | limitChange (value : Int)

/-- One transition of the App component: the state after the handler or effect
runs, together with the backend calls it issues.  Each branch mirrors one
handler or effect of the newer App component in src/frontend/src/api.ts:
setRoot fuses the input onChange with the datasetRoot effect (lines 354-370);
clickLoadDatasets is loadDatasets (lines 372-387); datasetsLoaded and
datasetsFailed are its then and catch branches; datasetEffect is the
selectedDataset effect (lines 389-414) whose then and catch branches are
splitsLoaded and splitsFailed; splitEffect is the selectedSplit effect (lines
416-427) with schemaLoaded and schemaFailed; clickRunQuery, clickPrev and
clickNext are the Run, Prev and Next buttons guarded by their disabled
expressions; autoRunEffect is the auto-run effect (lines 491-497);
clickCountRows is the Count rows button; setSql and limitChange are the
SqlEditor callbacks, guarded by the editor's disabled expression. -/
def step (e : Event) (s : AppState) : AppState × List ApiCall :=
  match e with
  | .setRoot r =>
      ({ s with datasetRoot := r,
                abortedCtrls := abortCtrl (abortCtrl s.abortedCtrls s.queryCtrl) s.countCtrl,
                queryCtrl := none, countCtrl := none,
                loading := false, countLoading := false,
                datasets := [], selectedDataset := none, splits := [],
                selectedSplit := none, schemaCols := [], result := none,
                offset := 0, totalCount := none, autoRunPending := false }, [])
  | .clickLoadDatasets =>
      if jsTrim s.datasetRoot = "" then
        ({ s with error := some "Choose a dataset folder path first." }, [])
      else
        ({ s with error := none }, [ApiCall.listDatasets s.datasetRoot])
  | .datasetsLoaded names =>
      ({ s with datasets := names, selectedDataset := names.head?,
                autoRunPending := names.head?.isSome }, [])
  | .datasetsFailed msg => ({ s with error := some msg }, [])
  | .datasetEffect =>
      match s.selectedDataset with
      | none => (s, [])
      | some ds =>
          if s.datasetRoot = "" then (s, [])
          else
            ({ s with abortedCtrls :=
                        abortCtrl (abortCtrl s.abortedCtrls s.queryCtrl) s.countCtrl,
                      error := none, result := none, offset := 0,
                      totalCount := none, schemaCols := [], splits := [],
                      selectedSplit := none },
             [ApiCall.listSplits ds s.datasetRoot])
  | .splitsLoaded names =>
      ({ s with splits := names, selectedSplit := names.head?,
                autoRunPending := names.head?.isSome }, [])
  | .splitsFailed msg =>
      ({ s with schemaCols := [], splits := [], selectedSplit := none,
                error := some msg }, [])
  | .splitEffect =>
      match s.selectedDataset, s.selectedSplit with
      | some ds, some sp =>
          if s.datasetRoot = "" then (s, [])
          else
            ({ s with offset := 0, totalCount := none },
             [ApiCall.schema ds s.datasetRoot (some sp)])
      | _, _ => (s, [])
  | .schemaLoaded cols approxRows =>
      ({ s with schemaCols := cols,
                totalCount := match approxRows with
                              | some t => some t
                              | none => s.totalCount }, [])
  | .schemaFailed msg => ({ s with error := some msg }, [])
  | .clickRunQuery =>
      if s.selectedDataset.isSome && !s.loading then runQueryStart s none none
      else (s, [])
  | .autoRunEffect =>
      match s.selectedDataset, s.selectedSplit with
      | some _, some _ =>
          if s.autoRunPending && decide (s.datasetRoot ≠ "") && !s.loading then
            runQueryStart { s with sql := DEFAULT_SQL, autoRunPending := false }
              (some DEFAULT_SQL) none
          else (s, [])
      | _, _ => (s, [])
  | .queryCompleted requestId ctrl outcome =>
      (runQueryComplete s requestId ctrl outcome, [])
  | .clickCountRows =>
      if countButtonEnabled s then fetchCountStart s else (s, [])
  | .countCompleted requestId ctrl outcome =>
      (fetchCountComplete s requestId ctrl outcome, [])
  | .clickPrev =>
      if prevButtonEnabled s then
        let nextOffset := max 0 (s.offset - s.limit)
        runQueryStart { s with offset := nextOffset } none (some nextOffset)
      else (s, [])
  | .clickNext =>
      if nextButtonEnabled s then
        let nextOffset := s.offset + s.limit
        runQueryStart { s with offset := nextOffset } none (some nextOffset)
      else (s, [])
  | .setSql q =>
      if s.selectedDataset.isSome && !s.loading then ({ s with sql := q }, [])
      else (s, [])
  | .limitChange v =>
      if s.selectedDataset.isSome && !s.loading then (handleLimitChange s v, [])
      else (s, [])

/-- Execution of a sequence of events from a given state, accumulating every
backend call issued along the way. -/
def runTraceFrom (events : List Event) (start : AppState × List ApiCall) :
    AppState × List ApiCall :=
  events.foldl (fun acc e => ((step e acc.1).1, acc.2 ++ (step e acc.1).2)) start

/-- Execution of a sequence of events from the initial state. -/
def runTrace (events : List Event) : AppState × List ApiCall :=
  runTraceFrom events (initialState, [])

/-- Distinctness invariant of the two abort-controller refs: every installed
controller identifier was drawn from the fresh counter, and the query and
count controllers are never the same object. -/
def CtrlInv (s : AppState) : Prop :=
  (∀ q, s.queryCtrl = some q → q < s.nextCtrl) ∧
  (∀ c, s.countCtrl = some c → c < s.nextCtrl) ∧
  (∀ q c, s.queryCtrl = some q → s.countCtrl = some c → q ≠ c)

/-- Offset and limit are non-negative. -/
def OffsetInv (s : AppState) : Prop := 0 ≤ s.offset ∧ 0 ≤ s.limit

/-- Every limit-change event in the trace supplies a non-negative value. -/
def limitChangesNonneg (events : List Event) : Prop :=
  ∀ v, Event.limitChange v ∈ events → 0 ≤ v

/-- A JavaScript runtime value held in a result row, as inspected by typeof in
ChartView; numbers are modelled as rationals, every non-number kind only needs
to be distinguishable from numbers. -/
inductive JsValue where
  | num (q : Rat)
  | str (s : String)
  | bool (b : Bool)
  | null
  | undefinedValue
  | object
deriving DecidableEq

/-- The typeof v === "number" test of ChartView. -/
def isNumberValue : JsValue → Bool
  | .num _ => true
  | _ => false

/-- The numeric content of a value already known to be a number. -/
def numberOf : JsValue → Rat
  | .num q => q
  | _ => 0

/-- JavaScript property access r[xField] on a record row: the field's value,
or undefined when the key is absent. -/
def fieldOf (row : List (String × JsValue)) (key : String) : JsValue :=
  match row.find? (fun kv => kv.1 == key) with
  | some kv => kv.2
  | none => .undefinedValue

/-- ChartView (src/unnamed/part_000 lines 83-85): the x-field values of the
result rows that are numbers. -/
def histNumericValues (rows : List (List (String × JsValue))) (xField : String) : List Rat :=
  ((rows.map (fun r => fieldOf r xField)).filter isNumberValue).map numberOf

/-- ChartView line 87: values.sort((a, b) => a - b), an ascending numeric
sort. -/
def histSorted (rows : List (List (String × JsValue))) (xField : String) : List Rat :=
  List.insertionSort (· ≤ ·) (histNumericValues rows xField)

/-- ChartView line 91: bin width (max - min || 1) / bins with bins = 20; min
and max are the first and last element of the sorted value list. -/
def histWidth (values : List Rat) : Rat :=
  (if values.getLastD 0 - values.headD 0 = 0 then 1
   else values.getLastD 0 - values.headD 0) / 20

/-- ChartView line 94: bin index Math.min(bins - 1, Math.floor((v - min) /
width)). -/
def binIndex (mn width v : Rat) : Int :=
  min 19 (Int.floor ((v - mn) / width))

/-- counts[idx] += 1 for an index known (and proved below) to be in range. -/
def bumpCount (counts : List Nat) (i : Nat) : List Nat :=
  counts.set i (counts.getD i 0 + 1)

/-- ChartView lines 83-96: the 20 histogram bin counts, or none when the
x field yields no numeric value (the values-length guard at line 86). -/
def histCounts (rows : List (List (String × JsValue))) (xField : String) :
    Option (List Nat) :=
  let values := histSorted rows xField
  if values = [] then none
  else
    let mn := values.headD 0
    let width := histWidth values
    some (values.foldl (fun cs v => bumpCount cs (binIndex mn width v).toNat)
      (List.replicate 20 0))

/-- C1: for every query request the client issues, the response handed to the
caller has exactly the protocol's fields - columns as strings, columnar data,
an integer row_count, a boolean truncated flag and a numeric elapsed_ms - and
the client (whose json helper returns the decoded ok body as is) delivers
every one of these fields unchanged to its caller. -/
theorem query_response_fields_unchanged (r : QueryResponse) :
    apiQuery (FetchOutcome.success r) =
      Except.ok (QueryResponse.mk r.columns r.data r.row_count r.truncated r.elapsed_ms) :=
  rfl

/-- C2: with DEFAULT_LIMIT = 1000 and MAX_LIMIT = 5000, a query with no
explicit limit uses the default effective limit 1000, returns at most 1000
rows, and is truncated exactly when the underlying split holds more than 1000
rows; every caller-supplied limit is clamped to the interval from 1 to 5000,
so a requested limit of 6000 executes as 5000. -/
theorem query_limit_policy {α : Type} (rows : List α) :
    effectiveLimit 1000 5000 none = 1000 ∧
    (runWithLimit rows 1000).1.length ≤ 1000 ∧
    ((runWithLimit rows 1000).2 = true ↔ 1000 < rows.length) ∧
    effectiveLimit 1000 5000 (some 6000) = 5000 ∧
    (∀ l : Int, 1 ≤ effectiveLimit 1000 5000 (some l) ∧
      effectiveLimit 1000 5000 (some l) ≤ 5000) := by
  refine ⟨rfl, ?_, ?_, rfl, ?_⟩
  · simp only [runWithLimit, List.length_take]
    split
    · dsimp only
      simp only [List.length_take]
      omega
    · rename_i hne
      dsimp only
      simp only [List.length_take]
      omega
  · simp only [runWithLimit, List.length_take]
    split
    · rename_i heq
      dsimp only
      simp only [true_iff]
      omega
    · rename_i hne
      dsimp only
      simp only [Bool.false_eq_true, false_iff, not_lt]
      omega
  · intro l
    simp only [effectiveLimit]
    exact ⟨le_min (by norm_num) (le_max_left 1 l), min_le_left _ _⟩

/-- C4 counterexample: when the response body is the six-character JSON text
consisting of the string oops in quotes (so JSON.parse yields the bare string
oops and the body carries no detail field), the claim requires the raw body
text as the message, but the code surfaces the parsed string, which differs
from the raw body text. -/
theorem error_message_raw_body_counterexample :
    errorMessageOfResponse "\"oops\"" "Internal Server Error" (some (Json.str "oops")) =
        "oops" ∧
      "oops" ≠ "\"oops\"" := by
  exact ⟨rfl, by decide⟩

/-- C4 (amended): for every non-ok response the client surfaces exactly one
human-readable string message: the body's string detail field when the body is
JSON with a string detail, the JSON-stringified detail when detail is
non-string, the parsed string when the body is a bare JSON string, the raw
body text when the body is neither such JSON nor a JSON string, and the HTTP
status text when the body is empty. -/
theorem error_message_single_string
    (text statusText : String) (parsed : Option Json) :
    (text = "" → errorMessageOfResponse text statusText parsed = statusText) ∧
    (∀ fields s, text ≠ "" → parsed = some (Json.obj fields) →
        Json.getDetail (Json.obj fields) = some (Json.str s) →
        errorMessageOfResponse text statusText parsed = s) ∧
    (∀ fields d, text ≠ "" → parsed = some (Json.obj fields) →
        Json.getDetail (Json.obj fields) = some d → (∀ s, d ≠ Json.str s) →
        errorMessageOfResponse text statusText parsed = stringify d) ∧
    (∀ s, text ≠ "" → parsed = some (Json.str s) →
        errorMessageOfResponse text statusText parsed = s) ∧
    (text ≠ "" → parsed = none →
        errorMessageOfResponse text statusText parsed = text) ∧
    (∀ p, text ≠ "" → parsed = some p → p.getDetail = none →
        (∀ s, p ≠ Json.str s) →
        errorMessageOfResponse text statusText parsed = text) := by
  refine ⟨?_, ?_, ?_, ?_, ?_, ?_⟩
  · intro h
    simp [errorMessageOfResponse, h, Json.isTruthy, Json.isObjectType, Json.getDetail]
  · intro fields s ht hp hd
    subst hp
    simp [errorMessageOfResponse, ht, Json.isTruthy, Json.isObjectType, hd]
  · intro fields d ht hp hd hds
    subst hp
    rcases em (∃ s, d = Json.str s) with ⟨s, rfl⟩ | hne
    · exact absurd rfl (hds s)
    · simp [errorMessageOfResponse, ht, Json.isTruthy, Json.isObjectType, hd]
  · intro s ht hp
    subst hp
    simp only [errorMessageOfResponse, if_neg ht]
    simp [Json.isTruthy, Json.isObjectType, Json.getDetail]
  · intro ht hp
    subst hp
    simp [errorMessageOfResponse, if_neg ht]
  · intro p ht hp hd hps
    subst hp
    simp only [errorMessageOfResponse, if_neg ht]
    match p, hps with
    | Json.null, _ => simp [Json.isTruthy]
    | Json.bool b, _ =>
        cases b <;> simp [Json.isTruthy, Json.isObjectType]
    | Json.num n, _ => simp [Json.isTruthy, Json.isObjectType]
    | Json.str s, hps => exact absurd rfl (hps s)
    | Json.arr l, _ => simp [Json.isTruthy, Json.isObjectType, Json.getDetail]
    | Json.obj f, _ =>
        simp only [Json.isTruthy, Json.isObjectType, Bool.and_self, if_pos]
        rw [hd]

/-- Witness for the amended C4 theorem at a concrete non-ok response carrying
a JSON body with a string detail field. -/
theorem error_message_single_string_witness :
    (("not found" : String) ≠ "" ∧
      Json.getDetail (Json.obj [("detail", Json.str "boom")]) = some (Json.str "boom")) ∧
    errorMessageOfResponse "not found" "Bad Request"
        (some (Json.obj [("detail", Json.str "boom")])) = "boom" := by
  refine ⟨⟨by decide, rfl⟩, ?_⟩
  exact (error_message_single_string "not found" "Bad Request"
    (some (Json.obj [("detail", Json.str "boom")]))).2.1 [("detail", Json.str "boom")]
    "boom" (by decide) rfl rfl

/-- Hexadecimal digits emitted by the percent encoder are never a question
mark or an ampersand. -/
theorem hexUpperDigit_ne_qm_amp (n : Nat) (h : n < 16) :
    hexUpperDigit n ≠ '?' ∧ hexUpperDigit n ≠ '&' := by
  interval_cases n <;> exact ⟨by decide, by decide⟩

/-- No character of a percent-encoded byte is a question mark or an
ampersand. -/
theorem mem_percentEncodeByte_ne_qm_amp (b : UInt8) (c : Char)
    (hc : c ∈ percentEncodeByte b) : c ≠ '?' ∧ c ≠ '&' := by
  have h1 : b.toNat / 16 < 16 := by
    have := b.toNat_lt
    omega
  have h2 : b.toNat % 16 < 16 := Nat.mod_lt _ (by norm_num)
  simp only [percentEncodeByte, List.mem_cons, List.not_mem_nil, or_false] at hc
  rcases hc with rfl | rfl | rfl
  · exact ⟨by decide, by decide⟩
  · exact hexUpperDigit_ne_qm_amp _ h1
  · exact hexUpperDigit_ne_qm_amp _ h2

/-- No character of the encoding of any character is a question mark or an
ampersand: the two are not unreserved, and escaping produces only percent
signs and hexadecimal digits. -/
theorem mem_encodeURIComponentChar_ne_qm_amp (c a : Char)
    (ha : a ∈ encodeURIComponentChar c) : a ≠ '?' ∧ a ≠ '&' := by
  unfold encodeURIComponentChar at ha
  split at ha
  · rename_i hres
    simp only [List.mem_singleton] at ha
    subst ha
    constructor
    · intro h
      subst h
      exact absurd hres (by decide)
    · intro h
      subst h
      exact absurd hres (by decide)
  · simp only [List.mem_flatten, List.mem_map] at ha
    obtain ⟨l, ⟨b, _, rfl⟩, hal⟩ := ha
    exact mem_percentEncodeByte_ne_qm_amp b a hal

/-- The percent-encoded root value contains no question mark and no
ampersand. -/
theorem countChar_encodeURIComponent_eq_zero (s : String) :
    countChar (encodeURIComponent s) '?' = 0 ∧
    countChar (encodeURIComponent s) '&' = 0 := by
  constructor <;>
  · simp only [countChar, encodeURIComponent, List.count_eq_zero]
    intro hmem
    simp only [List.mem_flatten, List.mem_map] at hmem
    obtain ⟨l, ⟨c, _, rfl⟩, hcl⟩ := hmem
    have := mem_encodeURIComponentChar_ne_qm_amp c _ hcl
    simp at this

/-- C8: for every call with a present non-empty root the built URL is the
path followed by the root parameter holding encodeURIComponent of the root,
joined with an ampersand exactly when the path already holds a question mark,
and the result holds at most one question mark whenever the path does; an
absent or empty root leaves the path unchanged. -/
theorem with_root_url_shape (path root : String) (hroot : root ≠ "")
    (hq : countChar path '?' ≤ 1) :
    withRoot path (some root) =
      path ++ (if strContainsChar path '?' then "&" else "?") ++ "root=" ++
        encodeURIComponent root ∧
    countChar (withRoot path (some root)) '?' ≤ 1 ∧
    withRoot path none = path ∧
    withRoot path (some "") = path := by
  have hshape : withRoot path (some root) =
      path ++ (if strContainsChar path '?' then "&" else "?") ++ "root=" ++
        encodeURIComponent root := by
    simp [withRoot, hroot]
  refine ⟨hshape, ?_, rfl, rfl⟩
  rw [hshape]
  have henc := (countChar_encodeURIComponent_eq_zero root).1
  by_cases hc : strContainsChar path '?'
  · have hcount : countChar ((path ++ "&" ++ "root=") ++ encodeURIComponent root) '?' =
        countChar path '?' := by
      simp only [countChar, String.data_append, List.count_append]
      have h1 : List.count '?' ['&'] = 0 := by decide
      have h2 : List.count '?' ['r', 'o', 'o', 't', '='] = 0 := by decide
      simp only [countChar] at henc
      omega
    rw [if_pos hc]
    simp only [countChar] at hcount hq ⊢
    omega
  · have hzero : countChar path '?' = 0 := by
      simp only [strContainsChar, List.any_eq_true, beq_iff_eq, not_exists] at hc
      simp only [countChar, List.count_eq_zero]
      intro hmem
      push_neg at hc
      exact hc '?' hmem rfl
    have hcount : countChar ((path ++ "?" ++ "root=") ++ encodeURIComponent root) '?' =
        countChar path '?' + 1 := by
      simp only [countChar, String.data_append, List.count_append]
      have h1 : List.count '?' ['?'] = 1 := by decide
      have h2 : List.count '?' ['r', 'o', 'o', 't', '='] = 0 := by decide
      simp only [countChar] at henc
      omega
    rw [if_neg hc]
    simp only [countChar] at hcount hzero ⊢
    omega

/-- Witness for the C8 theorem at a concrete path and root: the root value is
percent-encoded and exactly one question mark appears in the result. -/
theorem with_root_url_shape_witness :
    (("/tmp/my data" : String) ≠ "" ∧ countChar "/datasets/ds/query" '?' ≤ 1) ∧
    countChar (withRoot "/datasets/ds/query" (some "/tmp/my data")) '?' ≤ 1 := by
  refine ⟨⟨by decide, by decide⟩, ?_⟩
  exact (with_root_url_shape "/datasets/ds/query" "/tmp/my data" (by decide) (by decide)).2.1

/-- Every call runQueryStart issues is a query call. -/
theorem runQueryStart_calls (s : AppState) (so : Option String) (oo : Option Int)
    (c : ApiCall) (hc : c ∈ (runQueryStart s so oo).2) :
    ∃ ds root b, c = ApiCall.query ds root b := by
  unfold runQueryStart at hc
  split at hc
  · simp at hc
  · split at hc
    · simp at hc
    · simp only [List.mem_singleton] at hc
      exact ⟨_, _, _, hc⟩

/-- Every call fetchCountStart issues is a count call on the selected dataset,
root and split. -/
theorem fetchCountStart_calls (s : AppState) (c : ApiCall)
    (hc : c ∈ (fetchCountStart s).2) :
    c = ApiCall.count (s.selectedDataset.getD "") s.datasetRoot s.selectedSplit := by
  unfold fetchCountStart at hc
  split at hc
  · simp at hc
  · rename_i ds heq
    split at hc
    · simp at hc
    · simp only [List.mem_singleton] at hc
      simp [hc, heq]

/-- C3: the count endpoint is invoked solely from the Count rows button: in
every state, for every event, a count call can only be issued by the
clickCountRows event; and when a dataset and root are selected and neither a
query nor a count is loading, clicking Count rows issues exactly the count
call for the selected dataset, root and split. -/
theorem count_call_only_from_button :
    (∀ e s ds root sp, ApiCall.count ds root sp ∈ (step e s).2 →
        e = Event.clickCountRows) ∧
    (∀ s ds, s.selectedDataset = some ds → s.datasetRoot ≠ "" →
        s.countLoading = false → s.loading = false →
        (step Event.clickCountRows s).2 =
          [ApiCall.count ds s.datasetRoot s.selectedSplit]) := by
  constructor
  · intro e s ds root sp h
    cases e
    case clickCountRows => rfl
    case setRoot r => simp [step] at h
    case clickLoadDatasets =>
      simp only [step] at h
      split at h <;> simp at h
    case datasetsLoaded names => simp [step] at h
    case datasetsFailed msg => simp [step] at h
    case datasetEffect =>
      simp only [step] at h
      split at h
      · simp at h
      · split at h <;> simp at h
    case splitsLoaded names => simp [step] at h
    case splitsFailed msg => simp [step] at h
    case splitEffect =>
      simp only [step] at h
      split at h
      · split at h <;> simp at h
      · simp at h
    case schemaLoaded cols approxRows => simp [step] at h
    case schemaFailed msg => simp [step] at h
    case clickRunQuery =>
      simp only [step] at h
      split at h
      · obtain ⟨a, b, q, hcq⟩ := runQueryStart_calls _ _ _ _ h
        simp at hcq
      · simp at h
    case autoRunEffect =>
      simp only [step] at h
      split at h
      · split at h
        · obtain ⟨a, b, q, hcq⟩ := runQueryStart_calls _ _ _ _ h
          simp at hcq
        · simp at h
      · simp at h
    case queryCompleted requestId ctrl outcome => simp [step] at h
    case countCompleted requestId ctrl outcome => simp [step] at h
    case clickPrev =>
      simp only [step] at h
      split at h
      · obtain ⟨a, b, q, hcq⟩ := runQueryStart_calls _ _ _ _ h
        simp at hcq
      · simp at h
    case clickNext =>
      simp only [step] at h
      split at h
      · obtain ⟨a, b, q, hcq⟩ := runQueryStart_calls _ _ _ _ h
        simp at hcq
      · simp at h
    case setSql q =>
      simp only [step] at h
      split at h <;> simp at h
    case limitChange v =>
      simp only [step] at h
      split at h <;> simp at h
  · intro s ds hds hroot hcl hl
    have henabled : countButtonEnabled s = true := by
      simp [countButtonEnabled, hds, hcl, hl]
    simp only [step, if_pos henabled]
    unfold fetchCountStart
    split
    · rename_i heq
      rw [hds] at heq
      simp at heq
    · rename_i ds1 heq
      rw [hds] at heq
      injection heq with h
      subst h
      split
      · rename_i hr
        exact absurd hr hroot
      · rfl

/-- Witness for the C3 theorem: in a state with a dataset and root selected
and nothing loading, the Count rows click issues a count call, and the theorem
applies to that membership. -/
theorem count_call_only_from_button_witness :
    ApiCall.count "d" "/r" none ∈
        (step Event.clickCountRows
          { initialState with selectedDataset := some "d", datasetRoot := "/r" }).2 ∧
      Event.clickCountRows = Event.clickCountRows := by
  refine ⟨by decide, ?_⟩
  exact count_call_only_from_button.1 Event.clickCountRows
    { initialState with selectedDataset := some "d", datasetRoot := "/r" } "d" "/r" none
    (by decide)

/-- runQueryStart preserves the controller distinctness invariant: the new
query controller is fresh, so it differs from the installed count
controller. -/
theorem ctrlInv_runQueryStart (s : AppState) (so : Option String) (oo : Option Int)
    (h : CtrlInv s) : CtrlInv (runQueryStart s so oo).1 := by
  obtain ⟨h1, h2, h3⟩ := h
  unfold runQueryStart
  split
  · exact ⟨h1, h2, h3⟩
  · split
    · exact ⟨h1, h2, h3⟩
    · refine ⟨?_, ?_, ?_⟩
      · intro q hq
        dsimp only at hq ⊢
        injection hq with hq
        omega
      · intro c hc
        dsimp only at hc ⊢
        have := h2 c hc
        omega
      · intro q c hq hc
        dsimp only at hq hc
        injection hq with hq
        have := h2 c hc
        omega

/-- fetchCountStart preserves the controller distinctness invariant. -/
theorem ctrlInv_fetchCountStart (s : AppState) (h : CtrlInv s) :
    CtrlInv (fetchCountStart s).1 := by
  obtain ⟨h1, h2, h3⟩ := h
  unfold fetchCountStart
  split
  · exact ⟨h1, h2, h3⟩
  · split
    · exact ⟨h1, h2, h3⟩
    · refine ⟨?_, ?_, ?_⟩
      · intro q hq
        dsimp only at hq ⊢
        have := h1 q hq
        omega
      · intro c hc
        dsimp only at hc ⊢
        injection hc with hc
        omega
      · intro q c hq hc
        dsimp only at hq hc
        injection hc with hc
        have := h1 q hq
        omega

/-- A query completion never touches the controller refs or the fresh
counter. -/
theorem runQueryComplete_ctrl_fields (s : AppState) (requestId ctrl : Nat)
    (outcome : Except String QueryResponse) :
    (runQueryComplete s requestId ctrl outcome).queryCtrl = s.queryCtrl ∧
    (runQueryComplete s requestId ctrl outcome).countCtrl = s.countCtrl ∧
    (runQueryComplete s requestId ctrl outcome).nextCtrl = s.nextCtrl := by
  unfold runQueryComplete
  rcases outcome with res | msg <;>
    refine ⟨?_, ?_, ?_⟩ <;>
    · dsimp only
      simp [apply_ite AppState.queryCtrl, apply_ite AppState.countCtrl,
        apply_ite AppState.nextCtrl]

/-- A count completion never touches the controller refs or the fresh
counter. -/
theorem fetchCountComplete_ctrl_fields (s : AppState) (requestId ctrl : Nat)
    (outcome : Except String Int) :
    (fetchCountComplete s requestId ctrl outcome).queryCtrl = s.queryCtrl ∧
    (fetchCountComplete s requestId ctrl outcome).countCtrl = s.countCtrl ∧
    (fetchCountComplete s requestId ctrl outcome).nextCtrl = s.nextCtrl := by
  unfold fetchCountComplete
  rcases outcome with res | msg <;>
    refine ⟨?_, ?_, ?_⟩ <;>
    · dsimp only
      simp [apply_ite AppState.queryCtrl, apply_ite AppState.countCtrl,
        apply_ite AppState.nextCtrl]

/-- Transport of the controller invariant along a transition that leaves the
controller refs and the fresh counter unchanged. -/
theorem ctrlInv_of_fields_eq (s t : AppState)
    (hq : t.queryCtrl = s.queryCtrl) (hc : t.countCtrl = s.countCtrl)
    (hn : t.nextCtrl = s.nextCtrl) (h : CtrlInv s) : CtrlInv t := by
  obtain ⟨h1, h2, h3⟩ := h
  refine ⟨fun q hqq => ?_, fun c hcc => ?_, fun q c hqq hcc => ?_⟩
  · rw [hq] at hqq
    rw [hn]
    exact h1 q hqq
  · rw [hc] at hcc
    rw [hn]
    exact h2 c hcc
  · rw [hq] at hqq
    rw [hc] at hcc
    exact h3 q c hqq hcc

/-- Every App transition preserves the controller distinctness invariant. -/
theorem step_preserves_ctrlInv (e : Event) (s : AppState) (h : CtrlInv s) :
    CtrlInv (step e s).1 := by
  cases e
  case setRoot r =>
    refine ⟨fun q hq => ?_, fun c hc => ?_, fun q c hq hc => ?_⟩
    · simp [step] at hq
    · simp [step] at hc
    · simp [step] at hq
  case clickLoadDatasets =>
    simp only [step]
    split
    · exact ctrlInv_of_fields_eq s _ rfl rfl rfl h
    · exact ctrlInv_of_fields_eq s _ rfl rfl rfl h
  case datasetsLoaded names => exact ctrlInv_of_fields_eq s _ rfl rfl rfl h
  case datasetsFailed msg => exact ctrlInv_of_fields_eq s _ rfl rfl rfl h
  case datasetEffect =>
    simp only [step]
    split
    · exact h
    · split
      · exact h
      · exact ctrlInv_of_fields_eq s _ rfl rfl rfl h
  case splitsLoaded names => exact ctrlInv_of_fields_eq s _ rfl rfl rfl h
  case splitsFailed msg => exact ctrlInv_of_fields_eq s _ rfl rfl rfl h
  case splitEffect =>
    simp only [step]
    split
    · split
      · exact h
      · exact ctrlInv_of_fields_eq s _ rfl rfl rfl h
    · exact h
  case schemaLoaded cols approxRows => exact ctrlInv_of_fields_eq s _ rfl rfl rfl h
  case schemaFailed msg => exact ctrlInv_of_fields_eq s _ rfl rfl rfl h
  case clickRunQuery =>
    simp only [step]
    split
    · exact ctrlInv_runQueryStart s none none h
    · exact h
  case autoRunEffect =>
    simp only [step]
    split
    · split
      · exact ctrlInv_runQueryStart _ _ _ (ctrlInv_of_fields_eq s _ rfl rfl rfl h)
      · exact h
    · exact h
  case queryCompleted requestId ctrl outcome =>
    obtain ⟨f1, f2, f3⟩ := runQueryComplete_ctrl_fields s requestId ctrl outcome
    exact ctrlInv_of_fields_eq s _ f1 f2 f3 h
  case clickCountRows =>
    simp only [step]
    split
    · exact ctrlInv_fetchCountStart s h
    · exact h
  case countCompleted requestId ctrl outcome =>
    obtain ⟨f1, f2, f3⟩ := fetchCountComplete_ctrl_fields s requestId ctrl outcome
    exact ctrlInv_of_fields_eq s _ f1 f2 f3 h
  case clickPrev =>
    simp only [step]
    split
    · exact ctrlInv_runQueryStart _ _ _ (ctrlInv_of_fields_eq s _ rfl rfl rfl h)
    · exact h
  case clickNext =>
    simp only [step]
    split
    · exact ctrlInv_runQueryStart _ _ _ (ctrlInv_of_fields_eq s _ rfl rfl rfl h)
    · exact h
  case setSql q =>
    simp only [step]
    split
    · exact ctrlInv_of_fields_eq s _ rfl rfl rfl h
    · exact h
  case limitChange v =>
    simp only [step]
    split
    · exact ctrlInv_of_fields_eq s _ rfl rfl rfl h
    · exact h

/-- C5: count and query requests use two separate AbortControllers: the
invariant that the installed query and count controllers are distinct holds
initially and is preserved by every transition, and under it superseding a
count (which aborts only the count controller) leaves an installed un-aborted
query controller un-aborted, while starting a query leaves an installed
un-aborted count controller un-aborted. -/
theorem count_abort_independent :
    CtrlInv initialState ∧
    (∀ e s, CtrlInv s → CtrlInv (step e s).1) ∧
    (∀ s q, CtrlInv s → s.queryCtrl = some q → q ∉ s.abortedCtrls →
        q ∉ (fetchCountStart s).1.abortedCtrls) ∧
    (∀ s c so oo, CtrlInv s → s.countCtrl = some c → c ∉ s.abortedCtrls →
        c ∉ (runQueryStart s so oo).1.abortedCtrls) := by
  refine ⟨?_, step_preserves_ctrlInv, ?_, ?_⟩
  · refine ⟨fun q hq => ?_, fun c hc => ?_, fun q c hq hc => ?_⟩
    · simp [initialState] at hq
    · simp [initialState] at hc
    · simp [initialState] at hq
  · intro s q hInv hq hnot
    unfold fetchCountStart
    split
    · exact hnot
    · split
      · exact hnot
      · dsimp only
        unfold abortCtrl
        split
        · rename_i heq
          simp only [List.mem_cons, not_or]
          exact ⟨hInv.2.2 q _ hq heq, hnot⟩
        · exact hnot
  · intro s c so oo hInv hc hnot
    unfold runQueryStart
    split
    · exact hnot
    · split
      · exact hnot
      · dsimp only
        unfold abortCtrl
        split
        · rename_i heq
          simp only [List.mem_cons, not_or]
          refine ⟨?_, hnot⟩
          intro hcq
          exact (hInv.2.2 _ c heq hc) hcq.symm
        · exact hnot

/-- Witness for the C5 theorem: with query controller 0 and count controller 1
installed and un-aborted, superseding the count aborts only controller 1 and
leaves controller 0 un-aborted. -/
theorem count_abort_independent_witness :
    (0 : Nat) ∉
      (fetchCountStart
        { initialState with
            selectedDataset := some "d"
            datasetRoot := "/r"
            queryCtrl := some 0
            countCtrl := some 1
            nextCtrl := 2 }).1.abortedCtrls := by
  refine count_abort_independent.2.2.1 _ 0 ?_ rfl (by decide)
  refine ⟨fun q hq => ?_, fun c hc => ?_, fun q c hq hc => ?_⟩
  · dsimp only at hq ⊢
    injection hq with hq
    omega
  · dsimp only at hc ⊢
    injection hc with hc
    omega
  · dsimp only at hq hc
    injection hq with hq
    injection hc with hc
    omega

/-- C9: each query request is tagged with a strictly increasing sequence
number - issuing a query records the incremented sequence number, so a request
issued later carries a strictly greater tag; a completion whose tag is not the
current sequence number (in particular any request superseded by a later one)
changes nothing at all; a failure on an aborted controller never sets an error
message and never clears the result; and a success never writes an error. -/
theorem stale_query_completion_ignored :
    (∀ s so oo, (runQueryStart s so oo).1.querySeq = s.querySeq ∨
        (runQueryStart s so oo).1.querySeq = s.querySeq + 1) ∧
    (∀ s so oo ds, s.selectedDataset = some ds → s.datasetRoot ≠ "" →
        (runQueryStart s so oo).1.querySeq = s.querySeq + 1) ∧
    (∀ s requestId ctrl outcome, requestId ≠ s.querySeq →
        runQueryComplete s requestId ctrl outcome = s) ∧
    (∀ s requestId ctrl msg, ctrl ∈ s.abortedCtrls →
        (runQueryComplete s requestId ctrl (Except.error msg)).error = s.error ∧
        (runQueryComplete s requestId ctrl (Except.error msg)).result = s.result) ∧
    (∀ s requestId ctrl res,
        (runQueryComplete s requestId ctrl (Except.ok res)).error = s.error) := by
  refine ⟨?_, ?_, ?_, ?_, ?_⟩
  · intro s so oo
    unfold runQueryStart
    split
    · exact Or.inl rfl
    · split
      · exact Or.inl rfl
      · exact Or.inr rfl
  · intro s so oo ds hds hroot
    unfold runQueryStart
    split
    · rename_i heq
      rw [hds] at heq
      simp at heq
    · split
      · rename_i hr
        exact absurd hr hroot
      · rfl
  · intro s requestId ctrl outcome hne
    unfold runQueryComplete
    cases outcome <;> simp [hne]
  · intro s requestId ctrl msg habort
    unfold runQueryComplete
    dsimp only
    rw [if_pos habort]
    constructor
    · split <;> rfl
    · split <;> rfl
  · intro s requestId ctrl res
    unfold runQueryComplete
    dsimp only
    split <;> rfl

/-- Witness for the C9 theorem: a completion carrying stale tag 5 while the
current sequence number is 0 changes nothing. -/
theorem stale_query_completion_ignored_witness :
    (5 : Nat) ≠ initialState.querySeq ∧
    runQueryComplete initialState 5 0 (Except.error "boom") = initialState :=
  ⟨by decide,
   stale_query_completion_ignored.2.2.1 initialState 5 0 (Except.error "boom") (by decide)⟩

/-- C6: the truncated flag is the signal that more rows exist: with a result
displayed and no query loading, when the exact total is unknown the Next
action is enabled exactly when the last response was truncated, and when the
total is known it is enabled exactly when offset + row_count is below the
total. -/
theorem truncated_signals_more_rows (s : AppState) (r : QueryResponse)
    (hr : s.result = some r) (hl : s.loading = false) :
    (s.totalCount = none → (nextButtonEnabled s = true ↔ r.truncated = true)) ∧
    (∀ t, s.totalCount = some t →
        (nextButtonEnabled s = true ↔ s.offset + r.row_count < t)) := by
  constructor
  · intro htc
    simp [nextButtonEnabled, hasNext, hr, hl, htc]
  · intro t htc
    simp [nextButtonEnabled, hasNext, hr, hl, htc]

/-- Witness for the C6 theorem: a truncated result with unknown total enables
Next. -/
theorem truncated_signals_more_rows_witness :
    (({ initialState with
          result := some (QueryResponse.mk ["a"] [[Json.num 1]] 1 true 2) }).result =
        some (QueryResponse.mk ["a"] [[Json.num 1]] 1 true 2) ∧
      ({ initialState with
          result := some (QueryResponse.mk ["a"] [[Json.num 1]] 1 true 2) }).loading =
        false) ∧
    nextButtonEnabled
      { initialState with
          result := some (QueryResponse.mk ["a"] [[Json.num 1]] 1 true 2) } = true := by
  refine ⟨⟨rfl, rfl⟩, ?_⟩
  exact ((truncated_signals_more_rows
    { initialState with
        result := some (QueryResponse.mk ["a"] [[Json.num 1]] 1 true 2) }
    (QueryResponse.mk ["a"] [[Json.num 1]] 1 true 2) rfl rfl).1 rfl).mpr rfl

/-- C7 counterexample: from the initial state, load a dataset and a split, let
the auto-run query succeed with a truncated response, then change the limit to
-5 through the limit input (whose value the handler does not clamp) and click
the enabled Next button: the issued query request carries offset -5, which is
negative. -/
theorem negative_offset_counterexample :
    ApiCall.query "d" "/data"
        (QueryRequest.mk DEFAULT_SQL (some "default") (-5) (-5)) ∈
      (runTrace [Event.setRoot "/data", Event.clickLoadDatasets,
        Event.datasetsLoaded ["d"], Event.datasetEffect,
        Event.splitsLoaded ["default"], Event.autoRunEffect,
        Event.queryCompleted 1 0
          (Except.ok (QueryResponse.mk ["a"] [[Json.num 1]] 1 true 2)),
        Event.limitChange (-5), Event.clickNext]).2 ∧
    (-5 : Int) < 0 := by
  exact ⟨by decide, by decide⟩

/-- runQueryStart leaves the offset and limit states unchanged, and every
query it issues carries offset equal to the override (or the current offset
when no override is given). -/
theorem runQueryStart_offset_fields (s : AppState) (so : Option String)
    (oo : Option Int) :
    (runQueryStart s so oo).1.offset = s.offset ∧
    (runQueryStart s so oo).1.limit = s.limit ∧
    (∀ ds root b, ApiCall.query ds root b ∈ (runQueryStart s so oo).2 →
        b.offset = oo.getD s.offset) := by
  unfold runQueryStart
  split
  · refine ⟨rfl, rfl, ?_⟩
    intro ds root b h
    simp at h
  · split
    · refine ⟨rfl, rfl, ?_⟩
      intro ds root b h
      simp at h
    · refine ⟨rfl, rfl, ?_⟩
      intro ds root b h
      simp only [List.mem_singleton] at h
      injection h with h1 h2 h3
      subst h3
      rfl

/-- fetchCountStart leaves the offset and limit states unchanged. -/
theorem fetchCountStart_offset_fields (s : AppState) :
    (fetchCountStart s).1.offset = s.offset ∧ (fetchCountStart s).1.limit = s.limit := by
  unfold fetchCountStart
  split
  · exact ⟨rfl, rfl⟩
  · split
    · exact ⟨rfl, rfl⟩
    · exact ⟨rfl, rfl⟩

/-- A query completion leaves the offset and limit states unchanged. -/
theorem runQueryComplete_offset_fields (s : AppState) (requestId ctrl : Nat)
    (outcome : Except String QueryResponse) :
    (runQueryComplete s requestId ctrl outcome).offset = s.offset ∧
    (runQueryComplete s requestId ctrl outcome).limit = s.limit := by
  unfold runQueryComplete
  rcases outcome with res | msg <;>
    refine ⟨?_, ?_⟩ <;>
    · dsimp only
      simp [apply_ite AppState.offset, apply_ite AppState.limit]

/-- A count completion leaves the offset and limit states unchanged. -/
theorem fetchCountComplete_offset_fields (s : AppState) (requestId ctrl : Nat)
    (outcome : Except String Int) :
    (fetchCountComplete s requestId ctrl outcome).offset = s.offset ∧
    (fetchCountComplete s requestId ctrl outcome).limit = s.limit := by
  unfold fetchCountComplete
  rcases outcome with res | msg <;>
    refine ⟨?_, ?_⟩ <;>
    · dsimp only
      simp [apply_ite AppState.offset, apply_ite AppState.limit]

/-- Transport of non-negativity along a transition that leaves offset and
limit unchanged. -/
theorem offsetInv_of_fields_eq (s t : AppState) (h1 : t.offset = s.offset)
    (h2 : t.limit = s.limit) (h : OffsetInv s) : OffsetInv t := by
  constructor
  · rw [h1]
    exact h.1
  · rw [h2]
    exact h.2

/-- runQueryStart preserves non-negativity of offset and limit. -/
theorem offsetInv_runQueryStart (s : AppState) (so : Option String)
    (oo : Option Int) (h : OffsetInv s) : OffsetInv (runQueryStart s so oo).1 := by
  obtain ⟨f1, f2, _⟩ := runQueryStart_offset_fields s so oo
  exact offsetInv_of_fields_eq s _ f1 f2 h

/-- One transition preserves non-negativity of offset and limit (when any
limit change supplies a non-negative value), and every query it issues has a
non-negative offset. -/
theorem step_offset_nonneg (e : Event) (s : AppState) (hs : OffsetInv s)
    (he : ∀ v, e = Event.limitChange v → 0 ≤ v) :
    OffsetInv (step e s).1 ∧
    (∀ ds root b, ApiCall.query ds root b ∈ (step e s).2 → 0 ≤ b.offset) := by
  obtain ⟨ho, hl⟩ := hs
  cases e
  case setRoot r =>
    refine ⟨⟨by simp [step], by simpa [step] using hl⟩, ?_⟩
    intro ds root b h
    simp [step] at h
  case clickLoadDatasets =>
    refine ⟨?_, ?_⟩
    · simp only [step]
      split
      · exact ⟨ho, hl⟩
      · exact ⟨ho, hl⟩
    · intro ds root b h
      simp only [step] at h
      split at h <;> simp at h
  case datasetsLoaded names =>
    exact ⟨⟨ho, hl⟩, fun ds root b h => by simp [step] at h⟩
  case datasetsFailed msg =>
    exact ⟨⟨ho, hl⟩, fun ds root b h => by simp [step] at h⟩
  case datasetEffect =>
    refine ⟨?_, ?_⟩
    · simp only [step]
      split
      · exact ⟨ho, hl⟩
      · split
        · exact ⟨ho, hl⟩
        · exact ⟨by simp, hl⟩
    · intro ds root b h
      simp only [step] at h
      split at h
      · simp at h
      · split at h <;> simp at h
  case splitsLoaded names =>
    exact ⟨⟨ho, hl⟩, fun ds root b h => by simp [step] at h⟩
  case splitsFailed msg =>
    exact ⟨⟨ho, hl⟩, fun ds root b h => by simp [step] at h⟩
  case splitEffect =>
    refine ⟨?_, ?_⟩
    · simp only [step]
      split
      · split
        · exact ⟨ho, hl⟩
        · exact ⟨by simp, hl⟩
      · exact ⟨ho, hl⟩
    · intro ds root b h
      simp only [step] at h
      split at h
      · split at h <;> simp at h
      · simp at h
  case schemaLoaded cols approxRows =>
    exact ⟨⟨ho, hl⟩, fun ds root b h => by simp [step] at h⟩
  case schemaFailed msg =>
    exact ⟨⟨ho, hl⟩, fun ds root b h => by simp [step] at h⟩
  case clickRunQuery =>
    refine ⟨?_, ?_⟩
    · simp only [step]
      split
      · exact offsetInv_runQueryStart s none none ⟨ho, hl⟩
      · exact ⟨ho, hl⟩
    · intro ds root b h
      simp only [step] at h
      split at h
      · have := (runQueryStart_offset_fields s none none).2.2 ds root b h
        simpa [this] using ho
      · simp at h
  case autoRunEffect =>
    refine ⟨?_, ?_⟩
    · simp only [step]
      split
      · split
        · exact offsetInv_runQueryStart
            { s with sql := DEFAULT_SQL, autoRunPending := false }
            (some DEFAULT_SQL) none ⟨ho, hl⟩
        · exact ⟨ho, hl⟩
      · exact ⟨ho, hl⟩
    · intro ds root b h
      simp only [step] at h
      split at h
      · split at h
        · have := (runQueryStart_offset_fields
            { s with sql := DEFAULT_SQL, autoRunPending := false }
            (some DEFAULT_SQL) none).2.2 ds root b h
          simpa [this] using ho
        · simp at h
      · simp at h
  case queryCompleted requestId ctrl outcome =>
    obtain ⟨f1, f2⟩ := runQueryComplete_offset_fields s requestId ctrl outcome
    exact ⟨offsetInv_of_fields_eq s _ f1 f2 ⟨ho, hl⟩,
      fun ds root b h => by simp [step] at h⟩
  case clickCountRows =>
    refine ⟨?_, ?_⟩
    · simp only [step]
      split
      · obtain ⟨f1, f2⟩ := fetchCountStart_offset_fields s
        exact offsetInv_of_fields_eq s _ f1 f2 ⟨ho, hl⟩
      · exact ⟨ho, hl⟩
    · intro ds root b h
      simp only [step] at h
      split at h
      · have := fetchCountStart_calls s _ h
        simp at this
      · simp at h
  case countCompleted requestId ctrl outcome =>
    obtain ⟨f1, f2⟩ := fetchCountComplete_offset_fields s requestId ctrl outcome
    exact ⟨offsetInv_of_fields_eq s _ f1 f2 ⟨ho, hl⟩,
      fun ds root b h => by simp [step] at h⟩
  case clickPrev =>
    have hmax : (0 : Int) ≤ max 0 (s.offset - s.limit) := le_max_left 0 _
    refine ⟨?_, ?_⟩
    · simp only [step]
      split
      · exact offsetInv_runQueryStart
          { s with offset := max 0 (s.offset - s.limit) } none
          (some (max 0 (s.offset - s.limit))) ⟨hmax, hl⟩
      · exact ⟨ho, hl⟩
    · intro ds root b h
      simp only [step] at h
      split at h
      · have := (runQueryStart_offset_fields
          { s with offset := max 0 (s.offset - s.limit) } none
          (some (max 0 (s.offset - s.limit)))).2.2 ds root b h
        simp [this]
      · simp at h
  case clickNext =>
    have hsum : (0 : Int) ≤ s.offset + s.limit := by omega
    refine ⟨?_, ?_⟩
    · simp only [step]
      split
      · exact offsetInv_runQueryStart
          { s with offset := s.offset + s.limit } none
          (some (s.offset + s.limit)) ⟨hsum, hl⟩
      · exact ⟨ho, hl⟩
    · intro ds root b h
      simp only [step] at h
      split at h
      · have := (runQueryStart_offset_fields
          { s with offset := s.offset + s.limit } none
          (some (s.offset + s.limit))).2.2 ds root b h
        simpa [this] using hsum
      · simp at h
  case setSql q =>
    refine ⟨?_, ?_⟩
    · simp only [step]
      split
      · exact ⟨ho, hl⟩
      · exact ⟨ho, hl⟩
    · intro ds root b h
      simp only [step] at h
      split at h <;> simp at h
  case limitChange v =>
    have hv : (0 : Int) ≤ v := he v rfl
    refine ⟨?_, ?_⟩
    · simp only [step]
      split
      · exact ⟨by simp [handleLimitChange], by simp [handleLimitChange, hv]⟩
      · exact ⟨ho, hl⟩
    · intro ds root b h
      simp only [step] at h
      split at h <;> simp at h

/-- Offset safety along a whole trace, generalised over the start state and
the accumulated calls. -/
theorem runTraceFrom_offset_nonneg (events : List Event) (s : AppState)
    (acc : List ApiCall) (hs : OffsetInv s)
    (hacc : ∀ ds root b, ApiCall.query ds root b ∈ acc → 0 ≤ b.offset)
    (hev : ∀ v, Event.limitChange v ∈ events → 0 ≤ v) :
    OffsetInv (runTraceFrom events (s, acc)).1 ∧
    (∀ ds root b, ApiCall.query ds root b ∈ (runTraceFrom events (s, acc)).2 →
        0 ≤ b.offset) := by
  induction events generalizing s acc with
  | nil => exact ⟨hs, hacc⟩
  | cons e rest ih =>
      have hstep := step_offset_nonneg e s hs (fun v hv => hev v (by simp [hv]))
      have hacc2 : ∀ ds root b, ApiCall.query ds root b ∈ acc ++ (step e s).2 →
          0 ≤ b.offset := by
        intro ds root b h
        rcases List.mem_append.mp h with h | h
        · exact hacc ds root b h
        · exact hstep.2 ds root b h
      have hrest : ∀ v, Event.limitChange v ∈ rest → 0 ≤ v :=
        fun v hv => hev v (List.mem_cons_of_mem _ hv)
      have hrw : runTraceFrom (e :: rest) (s, acc) =
          runTraceFrom rest ((step e s).1, acc ++ (step e s).2) := rfl
      rw [hrw]
      exact ih _ _ hstep.1 hacc2 hrest

/-- C7 (amended): the offset state is initialized to 0, reset to 0 on root,
dataset, split and limit changes, and Prev clamps at 0; provided every value
supplied through the limit input is non-negative (the handler does not clamp
it, so a negative typed limit is excluded by hypothesis), no sequence of
events starting from the initial state produces a query request with a
negative offset, and the offset state itself stays non-negative. -/
theorem offset_requests_nonneg (events : List Event)
    (h : limitChangesNonneg events) :
    0 ≤ (runTrace events).1.offset ∧
    (∀ ds root b, ApiCall.query ds root b ∈ (runTrace events).2 → 0 ≤ b.offset) := by
  have hmain := runTraceFrom_offset_nonneg events initialState []
    ⟨by decide, by decide⟩ (by intro ds root b hmem; simp at hmem) h
  exact ⟨hmain.1.1, hmain.2⟩

/-- Witness for the amended C7 theorem on a concrete trace whose only limit
change supplies 3. -/
theorem offset_requests_nonneg_witness :
    limitChangesNonneg [Event.setRoot "/w", Event.limitChange 3] ∧
    0 ≤ (runTrace [Event.setRoot "/w", Event.limitChange 3]).1.offset := by
  have hl : limitChangesNonneg [Event.setRoot "/w", Event.limitChange 3] := by
    intro v hv
    simp only [List.mem_cons, List.not_mem_nil, or_false] at hv
    rcases hv with hv | hv
    · exact absurd hv (by simp)
    · injection hv with hv
      omega
  exact ⟨hl, (offset_requests_nonneg _ hl).1⟩

/-- Incrementing one bin keeps the number of bins. -/
theorem length_bumpCount (cs : List Nat) (i : Nat) :
    (bumpCount cs i).length = cs.length :=
  List.length_set cs i _

/-- Incrementing one bin in range raises the total count by one. -/
theorem sum_bumpCount (cs : List Nat) (i : Nat) (h : i < cs.length) :
    (bumpCount cs i).sum = cs.sum + 1 := by
  induction cs generalizing i with
  | nil => simp at h
  | cons c t ih =>
      cases i with
      | zero =>
          simp [bumpCount]
          omega
      | succ n =>
          have hn : n < t.length := by simpa using h
          have hrw : bumpCount (c :: t) (n + 1) = c :: bumpCount t n := by
            simp [bumpCount]
          rw [hrw, List.sum_cons, List.sum_cons, ih n hn]
          omega

/-- Folding bin increments over the values keeps the number of bins and adds
one to the total per value. -/
theorem foldl_bumpCount (f : Rat → Nat) (vs : List Rat) (cs : List Nat)
    (h : ∀ v ∈ vs, f v < cs.length) :
    (vs.foldl (fun a v => bumpCount a (f v)) cs).length = cs.length ∧
    (vs.foldl (fun a v => bumpCount a (f v)) cs).sum = cs.sum + vs.length := by
  induction vs generalizing cs with
  | nil => simp
  | cons v t ih =>
      have hv : f v < cs.length := h v (List.mem_cons_self v t)
      have ht : ∀ w ∈ t, f w < (bumpCount cs (f v)).length := by
        intro w hw
        rw [length_bumpCount]
        exact h w (List.mem_cons_of_mem _ hw)
      obtain ⟨ihl, ihs⟩ := ih (bumpCount cs (f v)) ht
      refine ⟨?_, ?_⟩
      · rw [List.foldl_cons, ihl, length_bumpCount]
      · rw [List.foldl_cons, ihs, sum_bumpCount cs (f v) hv, List.length_cons]
        omega

/-- The head of a sorted list bounds each of its members from below. -/
theorem sorted_headD_le (l : List Rat) (hl : List.Sorted (· ≤ ·) l)
    (v : Rat) (hv : v ∈ l) : l.headD 0 ≤ v := by
  cases l with
  | nil => simp at hv
  | cons a t =>
      simp only [List.headD_cons]
      rcases List.mem_cons.mp hv with rfl | hvt
      · exact le_refl v
      · exact (List.sorted_cons.mp hl).1 v hvt

/-- The last element of a non-empty list is one of its members. -/
theorem getLastD_mem_of_ne_nil (l : List Rat) (h : l ≠ []) : l.getLastD 0 ∈ l := by
  cases l with
  | nil => exact absurd rfl h
  | cons a t =>
      rw [List.getLastD_cons]
      exact List.getLastD_mem_cons t a

/-- The histogram bin width is positive on a sorted non-empty value list: when
all values are equal the difference max - min is replaced by 1. -/
theorem histWidth_pos (l : List Rat) (hs : List.Sorted (· ≤ ·) l) (h : l ≠ []) :
    0 < histWidth l := by
  have hmem := getLastD_mem_of_ne_nil l h
  have hle : l.headD 0 ≤ l.getLastD 0 := sorted_headD_le l hs _ hmem
  unfold histWidth
  split
  · norm_num
  · rename_i hne
    have hpos : (0 : Rat) < l.getLastD 0 - l.headD 0 :=
      lt_of_le_of_ne (by linarith) (Ne.symm hne)
    positivity

/-- For a positive width and a value at least the minimum, the bin index lies
in the range from 0 to 19. -/
theorem binIndex_range (mn width v : Rat) (hw : 0 < width) (hv : mn ≤ v) :
    0 ≤ binIndex mn width v ∧ binIndex mn width v ≤ 19 := by
  unfold binIndex
  have h0 : (0 : Rat) ≤ (v - mn) / width := div_nonneg (by linarith) hw.le
  have hfloor : (0 : Int) ≤ Int.floor ((v - mn) / width) := Int.floor_nonneg.mpr h0
  exact ⟨le_min (by norm_num) hfloor, min_le_left _ _⟩

/-- C10: the ChartView histogram is total and conservative: whenever the
selected x field yields at least one numeric value, the bin width is non-zero
(max - min is replaced by 1 when all values are equal), every computed bin
index lies between 0 and 19, and the 20 bin counts sum to the number of
numeric values. -/
theorem histogram_total_conservative (rows : List (List (String × JsValue)))
    (xField : String) (h : histNumericValues rows xField ≠ []) :
    histWidth (histSorted rows xField) ≠ 0 ∧
    (∀ v ∈ histSorted rows xField,
        0 ≤ binIndex ((histSorted rows xField).headD 0)
            (histWidth (histSorted rows xField)) v ∧
          binIndex ((histSorted rows xField).headD 0)
            (histWidth (histSorted rows xField)) v ≤ 19) ∧
    (∃ counts, histCounts rows xField = some counts ∧ counts.length = 20 ∧
        counts.sum = (histNumericValues rows xField).length) := by
  have hperm : List.Perm (histSorted rows xField) (histNumericValues rows xField) :=
    List.perm_insertionSort _ _
  have hsorted : List.Sorted (· ≤ ·) (histSorted rows xField) :=
    List.sorted_insertionSort _ _
  have hne : histSorted rows xField ≠ [] := by
    intro hnil
    apply h
    have hlen := hperm.length_eq
    rw [hnil] at hlen
    exact List.length_eq_zero.mp hlen.symm
  have hwpos := histWidth_pos _ hsorted hne
  refine ⟨ne_of_gt hwpos, ?_, ?_⟩
  · intro v hv
    exact binIndex_range _ _ v hwpos (sorted_headD_le _ hsorted v hv)
  · have hidx : ∀ v ∈ histSorted rows xField,
        (binIndex ((histSorted rows xField).headD 0)
          (histWidth (histSorted rows xField)) v).toNat <
          (List.replicate 20 (0 : Nat)).length := by
      intro v hv
      obtain ⟨h0, h19⟩ :=
        binIndex_range _ _ v hwpos (sorted_headD_le _ hsorted v hv)
      simp only [List.length_replicate]
      omega
    have hcounts : histCounts rows xField =
        some ((histSorted rows xField).foldl
          (fun cs v => bumpCount cs (binIndex ((histSorted rows xField).headD 0)
            (histWidth (histSorted rows xField)) v).toNat)
          (List.replicate 20 0)) := by
      unfold histCounts
      dsimp only
      rw [if_neg hne]
    obtain ⟨hlen, hsum⟩ := foldl_bumpCount
      (fun v => (binIndex ((histSorted rows xField).headD 0)
        (histWidth (histSorted rows xField)) v).toNat)
      (histSorted rows xField) (List.replicate 20 0) hidx
    refine ⟨_, hcounts, ?_, ?_⟩
    · rw [hlen]
      simp
    · rw [hsum, hperm.length_eq]
      simp

/-- Witness for the C10 theorem on two rows holding the numeric x values 1
and 3. -/
theorem histogram_total_conservative_witness :
    histNumericValues [[("x", JsValue.num 1)], [("x", JsValue.num 3)]] "x" ≠ [] ∧
    (∃ counts,
        histCounts [[("x", JsValue.num 1)], [("x", JsValue.num 3)]] "x" = some counts ∧
        counts.length = 20 ∧
        counts.sum =
          (histNumericValues [[("x", JsValue.num 1)], [("x", JsValue.num 3)]] "x").length) := by
  refine ⟨by decide, ?_⟩
  exact (histogram_total_conservative
    [[("x", JsValue.num 1)], [("x", JsValue.num 3)]] "x" (by decide)).2.2

end DatasetViz
